import Mathlib

/-!
Verification development for the description parser and type-resolution
engine of the schema-parser repository (src/parsers/sentence.ts and
src/parsers/types.ts).  The TypeScript source is shallowly embedded:

* strings are handled through their character lists (so that every
  definition is executable and kernel-reducible);
* JavaScript numbers produced by Number(...) are modelled by the type
  JsNum, with an explicit nan constructor, and a decimal-literal parser
  (the inputs handled by the extractors are decimal literals; every other
  string maps to nan exactly as calling Number on non-numeric text does);
* HTML descriptions are modelled as the already-parsed inline DOM
  (mutual inductives HNode / HList), which is the tree that cheerio.load
  hands to the walker in parseDescriptionToSentences; the string-level
  regular-expression operations of types.ts are modelled by their action
  on this tree (text nodes never contain a raw tag-opening character);
* the type-column text handled by parseTypeText stays a string, and the
  cheerio queries used on it (first anchor, all anchors, text content)
  are implemented as scanners over that string.
-/

set_option maxRecDepth 10000

namespace Schema

/-! ## Character and string utilities -/

def isJsSpace (c : Char) : Bool :=
  c = ' ' || c = '\t' || c = '\n' || c = '\r' || c = '\x0c' || c = '\x0b'

/-- Trim JS-style whitespace from both ends of a character list. -/
def trimChars (cs : List Char) : List Char :=
  ((cs.dropWhile isJsSpace).reverse.dropWhile isJsSpace).reverse

def trimStr (s : String) : String :=
  String.mk (trimChars s.data)

def lowerChars (cs : List Char) : List Char :=
  cs.map Char.toLower

def lowerStr (s : String) : String :=
  String.mk (lowerChars s.data)

/-- Does the sequence pre occur at the head of cs? -/
def startsWithSeq (pre cs : List Char) : Bool :=
  match pre, cs with
  | [], _ => true
  | _ :: _, [] => false
  | p :: ps, c :: rest => p = c && startsWithSeq ps rest

/-- Does the sequence pat occur anywhere inside cs? -/
def containsSeq (pat cs : List Char) : Bool :=
  match cs with
  | [] => startsWithSeq pat []
  | _ :: rest => startsWithSeq pat cs || containsSeq pat rest

/-- Fuel-driven split of cs on the (nonempty) separator sep, mirroring
JavaScript String.prototype.split: non-overlapping matches, scanned left
to right.  The fuel is the length of the list, which bounds the number of
scan steps. -/
def splitSepGo (sep : List Char) : Nat → List Char → List Char → List (List Char)
  | 0, cs, acc => [acc.reverse ++ cs]
  | _ + 1, [], acc => [acc.reverse]
  | fuel + 1, c :: rest, acc =>
    if startsWithSeq sep (c :: rest) then
      acc.reverse :: splitSepGo sep fuel (List.drop (sep.length - 1) rest) []
    else
      splitSepGo sep fuel rest (c :: acc)

def splitSep (sep cs : List Char) : List (List Char) :=
  splitSepGo sep cs.length cs []

def splitStr (sep s : String) : List String :=
  (splitSep sep.data s.data).map String.mk

/-- Maximal whitespace-free runs of a character list. -/
def wsWords : List Char → List Char → List (List Char)
  | [], acc => if acc = [] then [] else [acc.reverse]
  | c :: rest, acc =>
    if isJsSpace c then
      if acc = [] then wsWords rest [] else acc.reverse :: wsWords rest []
    else wsWords rest (c :: acc)

/-- Collapse every whitespace run to a single space and trim, mirroring
replace(/\s+/g, " ") followed by trim. -/
def collapseWs (cs : List Char) : List Char :=
  List.intercalate [' '] (wsWords cs [])

/-- Order-preserving deduplication (the uniqueArray helper of types.ts,
and the Set-based dedup loop of extractOneOf). -/
def dedupKeep {α : Type} [DecidableEq α] : List α → List α
  | [] => []
  | a :: rest => a :: (dedupKeep rest).filter (· ≠ a)

def allDigits (cs : List Char) : Bool :=
  cs ≠ [] && cs.all Char.isDigit

def digitsToNat (cs : List Char) : Nat :=
  cs.foldl (fun n c => 10 * n + (c.toNat - 48)) 0

/-! ## Tokenizer (tokenize in sentence.ts) -/

inductive TokenKind where
  | word | dot | quote | lparen | rparen
  deriving DecidableEq, Repr

structure Token where
  kind : TokenKind
  text : String
  deriving DecidableEq, Repr

def isQuoteChar (c : Char) : Bool :=
  c = '"' || c = '“' || c = '”'

/-- A character that terminates a word run: comma, whitespace, period,
quote or parenthesis (the separator class of the tokenizer regex). -/
def isTokSeparator (c : Char) : Bool :=
  c = ',' || isJsSpace c || c = '.' || isQuoteChar c || c = '(' || c = ')'

def flushWord (acc : List Char) : List Token :=
  match acc with
  | [] => []
  | _ => [⟨TokenKind.word, String.mk acc.reverse⟩]

/-- Scan of the tokenizer regex: punctuation characters become their own
tokens, word runs accumulate, commas and whitespace vanish. -/
def tokenizeGo : List Char → List Char → List Token
  | [], acc => flushWord acc
  | c :: rest, acc =>
    if c = '.' then
      flushWord acc ++ (⟨TokenKind.dot, "."⟩ : Token) :: tokenizeGo rest []
    else if isQuoteChar c then
      flushWord acc ++ (⟨TokenKind.quote, String.mk [c]⟩ : Token) :: tokenizeGo rest []
    else if c = '(' then
      flushWord acc ++ (⟨TokenKind.lparen, "("⟩ : Token) :: tokenizeGo rest []
    else if c = ')' then
      flushWord acc ++ (⟨TokenKind.rparen, ")"⟩ : Token) :: tokenizeGo rest []
    else if c = ',' || isJsSpace c then
      flushWord acc ++ tokenizeGo rest []
    else
      tokenizeGo rest (c :: acc)

def tokenize (s : String) : List Token :=
  tokenizeGo s.data []

/-! ## Parts and sentences -/

inductive PartKind where
  | word | link | bold | italic | code
  deriving DecidableEq, Repr

structure Part where
  inner : String
  hasQuotes : Bool
  kind : PartKind
  href : Option String := none
  deriving DecidableEq, Repr

abbrev Sentence := List Part

def partNew (inner : String) : Part := ⟨inner, false, PartKind.word, none⟩
def partLink (inner href : String) : Part := ⟨inner, false, PartKind.link, some href⟩
def partItalic (inner : String) : Part := ⟨inner, false, PartKind.italic, none⟩
def partBold (inner : String) : Part := ⟨inner, false, PartKind.bold, none⟩
def partCode (inner : String) : Part := ⟨inner, false, PartKind.code, none⟩

/-! ## Quote state machine -/

inductive QuoteState where
  | none | left | right
  deriving DecidableEq, Repr

def nextQuoteState : QuoteState → QuoteState
  | QuoteState.none => QuoteState.left
  | QuoteState.left => QuoteState.right
  | QuoteState.right => QuoteState.none

/-! ## Inline HTML model

A description is modelled as the inline DOM produced by cheerio.load:
text nodes, anchors, emphasis, bold, code spans, images, list items,
line breaks, paragraphs and a generic container for any other tag.
The img constructor keeps the attributes the source reads: the class
list and the alt attribute (none when absent). -/

mutual
inductive HNode where
  | text (s : String)
  | a (href : String) (children : HList)
  | em (children : HList)
  | strong (children : HList)
  | b (children : HList)
  | code (children : HList)
  | img (cls : List String) (alt : Option String)
  | li (children : HList)
  | br
  | p (children : HList)
  | other (children : HList)
  deriving DecidableEq

inductive HList where
  | nil
  | cons (n : HNode) (l : HList)
  deriving DecidableEq
end

/-! Text content of a node, as cheerio's text(): the concatenation of all
descendant text nodes, with nothing inserted between them. -/
mutual
def nodeText : HNode → String
  | HNode.text s => s
  | HNode.a _ c => listText c
  | HNode.em c => listText c
  | HNode.strong c => listText c
  | HNode.b c => listText c
  | HNode.code c => listText c
  | HNode.img _ _ => ""
  | HNode.li c => listText c
  | HNode.br => ""
  | HNode.p c => listText c
  | HNode.other c => listText c

def listText : HList → String
  | HList.nil => ""
  | HList.cons n l => nodeText n ++ listText l
end

/-! ## Sentence builder (parseDescriptionToSentences in sentence.ts) -/

/-- Walker state: output sentences, the in-progress part list, the quote
state, the recorded start of the current quoted span, and the
inside-parentheses flag. -/
structure PState where
  sentences : List Sentence
  parts : List Part
  quote : QuoteState
  quotePartStart : Nat
  paren : Bool
  deriving Repr

def initPState : PState :=
  ⟨[], [], QuoteState.none, 0, false⟩

def finalizeSentence (st : PState) : PState :=
  if st.parts = [] then st
  else { st with sentences := st.sentences ++ [st.parts], parts := [] }

/-- Splice out the parts accumulated since the quoted span began and
replace them by one combined part with hasQuotes set. -/
def collapseQuotedParts (st : PState) : PState :=
  let kept := st.parts.take st.quotePartStart
  let quoted := st.parts.drop st.quotePartStart
  let combined := String.intercalate " " (quoted.map Part.inner)
  { st with parts := kept ++ [⟨combined, true, PartKind.word, none⟩] }

def processToken (st : PState) (t : Token) : PState :=
  match t.kind with
  | TokenKind.lparen => { st with paren := true }
  | TokenKind.rparen => { st with paren := false }
  | TokenKind.word =>
    if st.paren then st else { st with parts := st.parts ++ [partNew t.text] }
  | TokenKind.dot =>
    if st.paren = false ∧ st.quote ≠ QuoteState.left then finalizeSentence st else st
  | TokenKind.quote =>
    if st.paren then st
    else
      let q := nextQuoteState st.quote
      if q = QuoteState.left then
        { st with quote := q, quotePartStart := st.parts.length }
      else if q = QuoteState.right then
        let st := collapseQuotedParts { st with quote := q }
        { st with quote := nextQuoteState QuoteState.right }
      else
        { st with quote := q }

def processTextNode (st : PState) (s : String) : PState :=
  (tokenize s).foldl processToken st

/-! Walk of a node list.  Element nodes are skipped entirely while the
parenthesis flag is set; a list item finalizes the pending sentence and
parses its children as an independent document. -/
mutual
def processNode (st : PState) : HNode → PState
  | HNode.text s => processTextNode st s
  | HNode.a href c =>
    if st.paren then st
    else
      let t := trimStr (listText c)
      if t ≠ "" then { st with parts := st.parts ++ [partLink t href] } else st
  | HNode.em c =>
    if st.paren then st
    else
      let t := trimStr (listText c)
      if t ≠ "" then { st with parts := st.parts ++ [partItalic t] } else st
  | HNode.strong c =>
    if st.paren then st
    else
      let t := trimStr (listText c)
      if t ≠ "" then { st with parts := st.parts ++ [partBold t] } else st
  | HNode.b c =>
    if st.paren then st
    else
      let t := trimStr (listText c)
      if t ≠ "" then { st with parts := st.parts ++ [partBold t] } else st
  | HNode.code c =>
    if st.paren then st
    else
      let t := trimStr (listText c)
      if t ≠ "" then { st with parts := st.parts ++ [partCode t] } else st
  | HNode.img _ alt =>
    if st.paren then st
    else
      let altText := alt.getD ""
      if altText ≠ "" then
        { st with parts := st.parts ++ [⟨altText, st.quote = QuoteState.left, PartKind.word, none⟩] }
      else st
  | HNode.li c =>
    if st.paren then st
    else
      let st := finalizeSentence st
      let child := finalizeSentence (processNodes initPState c)
      { st with sentences := st.sentences ++ child.sentences }
  | HNode.br => st
  | HNode.p c => if st.paren then st else processNodes st c
  | HNode.other c => if st.paren then st else processNodes st c

def processNodes (st : PState) : HList → PState
  | HList.nil => st
  | HList.cons n l => processNodes (processNode st n) l
end

def parseDescriptionToSentences (h : HList) : List Sentence :=
  (finalizeSentence (processNodes initPState h)).sentences

/-! ## Pattern system (sentence.ts) -/

inductive SearchBy where
  | word (w : String)
  | kind (k : PartKind)
  | quotes
  deriving DecidableEq, Repr

structure SearcherPattern where
  parts : List SearchBy
  offset : Int := 0
  exclude : Bool := false
  deriving DecidableEq, Repr

def matchesPart : SearchBy → Part → Bool
  | SearchBy.word w, part => part.inner = w
  | SearchBy.kind k, part => part.kind = k
  | SearchBy.quotes, part => part.hasQuotes

inductive PatternType where
  | ReturnType | Default | MinMax | OneOf
  deriving DecidableEq, Repr

def wd (w : String) : SearchBy := SearchBy.word w

def getPatterns : PatternType → List SearcherPattern
  | PatternType.ReturnType =>
    [ ⟨[wd "Returns", wd "the", wd "bot's", wd "Telegram"], 0, true⟩,
      ⟨[wd "Returns", wd "the", wd "list", wd "of"], 0, true⟩,
      ⟨[wd "Returns", wd "the", wd "amount", wd "of"], 0, true⟩,
      ⟨[wd "On", wd "success"], 0, false⟩,
      ⟨[wd "Returns"], 0, false⟩,
      ⟨[wd "returns"], 0, false⟩,
      ⟨[wd "An"], 0, false⟩,
      ⟨[wd "is", wd "returned"], -3, false⟩ ]
  | PatternType.Default =>
    [ ⟨[wd "Defaults", wd "to"], 0, false⟩,
      ⟨[wd "defaults", wd "to"], 0, true⟩,
      ⟨[wd "defaults", wd "to"], 0, false⟩,
      ⟨[wd "must", wd "be", SearchBy.kind PartKind.italic], -1, false⟩,
      ⟨[wd "always", SearchBy.quotes], -1, false⟩ ]
  | PatternType.MinMax =>
    [ ⟨[wd "Values", wd "between"], 0, false⟩,
      ⟨[wd "characters"], -2, false⟩ ]
  | PatternType.OneOf =>
    [ ⟨[wd "either"], 0, false⟩,
      ⟨[wd "One", wd "of"], 0, false⟩,
      ⟨[wd "one", wd "of"], 0, false⟩,
      ⟨[wd "Can", wd "be"], 0, false⟩,
      ⟨[wd "can", wd "be", SearchBy.quotes], -1, false⟩,
      ⟨[SearchBy.quotes, wd "or", SearchBy.quotes], -3, false⟩,
      ⟨[wd "Choose", wd "one"], 0, false⟩ ]

/-! ## Pattern matcher (matchPattern in sentence.ts) -/

/-- The window of size pattern.parts.length starting at i matches the
sentence: every predicate accepts the corresponding part. -/
def windowHits (p : SearcherPattern) (s : Sentence) (i : Nat) : Bool :=
  decide (i + p.parts.length ≤ s.length) &&
    (p.parts.zip (s.drop i)).all (fun pr => matchesPart pr.1 pr.2)

/-- Leftmost matching window of a pattern in a sentence (the inner for
loop of matchPattern; when the window is larger than the sentence the
loop body never runs). -/
def firstWindow (p : SearcherPattern) (s : Sentence) : Option Nat :=
  (List.range (s.length + 1 - p.parts.length)).find? (fun i => windowHits p s i)

/-- Capture start index: Math.max(0, windowEnd + offset), where windowEnd
is the index one past the matched window. -/
def captureStart (p : SearcherPattern) (i : Nat) : Nat :=
  (((i : Int) + p.parts.length) + p.offset).toNat

/-- Per-sentence outcome of the matcher loop. -/
inductive SentOutcome where
  | excluded
  | found (r : Sentence)
  | noMatch
  deriving DecidableEq, Repr

/-- The pattern loop of matchPattern, with its excluded / result flags:
the first pattern that matches anywhere decides the sentence, an
excluding pattern aborting it and any other pattern producing the tail
slice from the capture start. -/
def sentenceOutcome : List SearcherPattern → Sentence → SentOutcome
  | [], _ => SentOutcome.noMatch
  | p :: ps, s =>
    match firstWindow p s with
    | none => sentenceOutcome ps s
    | some i =>
      if p.exclude then SentOutcome.excluded
      else SentOutcome.found (s.drop (captureStart p i))

/-- The sentence loop of matchPattern: an excluded or unmatched sentence
is skipped, the first sentence with a result returns it. -/
def matchPatternList (pats : List SearcherPattern) : List Sentence → Option Sentence
  | [] => none
  | s :: rest =>
    match sentenceOutcome pats s with
    | SentOutcome.excluded => matchPatternList pats rest
    | SentOutcome.found r => some r
    | SentOutcome.noMatch => matchPatternList pats rest

def matchPattern (pt : PatternType) (sentences : List Sentence) : Option Sentence :=
  matchPatternList (getPatterns pt) sentences

/-! ## Extractors (sentence.ts) -/

def extractDefault (sentences : List Sentence) : Option String :=
  match matchPattern PatternType.Default sentences with
  | none => none
  | some [] => none
  | some (p :: _) => some p.inner

structure MinMax where
  min : String
  max : String
  deriving DecidableEq, Repr

def extractMinMax (sentences : List Sentence) : Option MinMax :=
  match matchPattern PatternType.MinMax sentences with
  | none => none
  | some [] => none
  | some (p :: _) =>
    match splitStr "-" p.inner with
    | a :: b :: _ =>
      let mn := trimStr a
      let mx := trimStr b
      if mn ≠ "" && mx ≠ "" then some ⟨mn, mx⟩ else none
    | _ => none

/-- Evaluate a simple int times int product expression textually
(tryEvalSimpleExpr in sentence.ts); anything else is kept verbatim. -/
def tryEvalSimpleExpr (expr : String) : String :=
  let cs := expr.data
  let ds1 := cs.takeWhile Char.isDigit
  let r1 := cs.dropWhile Char.isDigit
  let r2 := r1.dropWhile isJsSpace
  match r2 with
  | '*' :: r3 =>
    let r4 := r3.dropWhile isJsSpace
    let ds2 := r4.takeWhile Char.isDigit
    let r5 := r4.dropWhile Char.isDigit
    if ds1 ≠ [] && ds2 ≠ [] && r5 = [] then
      Nat.repr (digitsToNat ds1 * digitsToNat ds2)
    else expr
  | _ => expr

def isValuePart (part : Part) : Bool :=
  part.hasQuotes || part.kind = PartKind.italic || part.kind = PartKind.code ||
    allDigits part.inner.data

def partToValue (part : Part) : String :=
  if part.kind = PartKind.code then tryEvalSimpleExpr part.inner else part.inner

/-- The window loop of extractOneOf: at each matching window gather the
value-like parts of the captured slice, prefer the whole-sentence
superset when it is larger, deduplicate, and stop at the first nonempty
result. -/
def oneOfWindows (p : SearcherPattern) (s : Sentence) : List Nat → Option (List String)
  | [] => none
  | i :: rest =>
    if windowHits p s i then
      let slice := s.drop (captureStart p i)
      let values := (slice.filter isValuePart).map partToValue
      let fullValues := (s.filter isValuePart).map partToValue
      let values := if fullValues.length > values.length then fullValues else values
      let deduped := dedupKeep values
      if deduped.length > 0 then some deduped else oneOfWindows p s rest
    else oneOfWindows p s rest

def oneOfPatterns (s : Sentence) : List SearcherPattern → Option (List String)
  | [] => none
  | p :: ps =>
    if p.parts.length > s.length then oneOfPatterns s ps
    else
      match oneOfWindows p s (List.range (s.length + 1 - p.parts.length)) with
      | some r => some r
      | none => oneOfPatterns s ps

def extractOneOf : List Sentence → Option (List String)
  | [] => none
  | s :: rest =>
    match oneOfPatterns s (getPatterns PatternType.OneOf) with
    | some r => some r
    | none => extractOneOf rest

def extractReturnType (sentences : List Sentence) : Option Sentence :=
  matchPattern PatternType.ReturnType sentences

/-- Modelled from the spec: extractConst is imported by src/parsers/types.ts
from the sentence module, but its definition is not present under src/.
Following the specification's const extraction (the "must be italic"
pattern with its backward-inclusive capture offset, sections 3 and 4.4)
it runs the matcher with that single pattern and returns the captured
part's inner text. -/
def extractConst (sentences : List Sentence) : Option String :=
  match matchPatternList
      [⟨[wd "must", wd "be", SearchBy.kind PartKind.italic], -1, false⟩] sentences with
  | none => none
  | some [] => none
  | some (p :: _) => some p.inner

/-! ## Type extraction from parts (sentence.ts) -/

def endsWithSeq (suf cs : List Char) : Bool :=
  startsWithSeq suf.reverse cs.reverse

/-- If the name ends in "es", drop the final character only. -/
def stripPluralEnding (name : String) : String :=
  if endsWithSeq ['e', 's'] name.data then String.mk (name.data.dropLast) else name

/-- First character equals its uppercase form and differs from its
lowercase form (ASCII in this embedding). -/
def isFirstLetterUppercase (s : String) : Bool :=
  match s.data with
  | [] => false
  | c :: _ => c = c.toUpper && c ≠ c.toLower

mutual
inductive ExtractedType where
  | single (name : Option String) (href : Option String)
  | array (inner : Option ExtractedType)
  | or (variants : EList)

inductive EList where
  | nil
  | cons (t : ExtractedType) (l : EList)
end

def EList.ofList : List ExtractedType → EList
  | [] => EList.nil
  | t :: l => EList.cons t (EList.ofList l)

def EList.isNil : EList → Bool
  | EList.nil => true
  | EList.cons _ _ => false

/-- Uppercase-led parts other than the "otherwise" marker, turned into
single types (the Or collection loop of extractTypeFromParts). -/
def otherwiseVariants (parts : List Part) : List ExtractedType :=
  (parts.filter (fun p => p.inner ≠ "otherwise" && isFirstLetterUppercase p.inner)).map
    (fun p => ExtractedType.single (some (stripPluralEnding p.inner)) p.href)

/-- Index of the first uppercase-led part. -/
def firstUppercaseIdx (parts : List Part) : Option Nat :=
  (List.range parts.length).find? (fun i =>
    match parts.get? i with
    | some p => isFirstLetterUppercase p.inner
    | none => false)

/-- extractTypeFromParts of sentence.ts.  The recursion of the source is
on shorter part lists; fuel (always called with more fuel than the list
is long) drives it here so that the definition stays executable. -/
def extractTypeFromPartsFuel : Nat → List Part → Option ExtractedType
  | 0, _ => none
  | _ + 1, [] => none
  | fuel + 1, parts =>
    if parts.any (fun p => p.inner = "otherwise") then
      let types := otherwiseVariants parts
      if types.length > 0 then some (ExtractedType.or (EList.ofList types)) else none
    else
      match firstUppercaseIdx parts with
      | none => none
      | some pos =>
        match parts.get? pos with
        | none => none
        | some part =>
          let name := stripPluralEnding part.inner
          if name = "Array" then
            let rest := parts.drop (pos + 1)
            let afterOf :=
              match rest with
              | r :: rs => if r.inner = "of" then rs else rest
              | [] => rest
            match extractTypeFromPartsFuel fuel afterOf with
            | some innerType => some (ExtractedType.array (some innerType))
            | none => none
          else
            let prev3 := (parts.drop (pos - 3)).take 3
            let anArrayOf :=
              decide (3 ≤ pos) &&
                match prev3 with
                | [a, b, c] => a.inner = "an" && b.inner = "array" && c.inner = "of"
                | _ => false
            let aListOf :=
              decide (3 ≤ pos) &&
                match prev3 with
                | [a, b, c] =>
                  (a.inner = "a" || a.inner = "the") && b.inner = "list" && c.inner = "of"
                | _ => false
            if anArrayOf || aListOf then
              match extractTypeFromPartsFuel fuel (parts.drop pos) with
              | some innerType => some (ExtractedType.array (some innerType))
              | none => some (ExtractedType.single (some name) part.href)
            else
              some (ExtractedType.single (some name) part.href)

def extractTypeFromParts (parts : List Part) : Option ExtractedType :=
  extractTypeFromPartsFuel (parts.length + 1) parts

/-! ## JavaScript numbers -/

/-- A decimal value n / 10 ^ e in canonical form (e is minimal, and
zero is 0 / 10 ^ 0), so that structural equality coincides with numeric
equality of the represented rationals. -/
structure Dec where
  n : Int
  e : Nat
  deriving DecidableEq, Repr

/-- Canonicalize n / 10 ^ e by removing factors of ten (fuel-driven over
e, which bounds the number of removable factors). -/
def mkDecGo : Nat → Int → Nat → Dec
  | _, n, 0 => ⟨n, 0⟩
  | 0, n, e => ⟨n, e⟩
  | fuel + 1, n, e + 1 =>
    if n % 10 = 0 then mkDecGo fuel (n / 10) e else ⟨n, e + 1⟩

def mkDec (n : Int) (e : Nat) : Dec :=
  if n = 0 then ⟨0, 0⟩ else mkDecGo e n e

def decOfInt (n : Int) : Dec := mkDec n 0

/-- A JavaScript number as the extractors observe it: either NaN or a
decimal value (all numeric text handled by the extractors is decimal). -/
inductive JsNum where
  | nan
  | num (d : Dec)
  deriving DecidableEq, Repr

def JsNum.isNaN : JsNum → Bool
  | JsNum.nan => true
  | JsNum.num _ => false

/-- Number(s) on the strings reaching the extractors: whitespace is
trimmed, the empty string is 0, a decimal literal (optional sign,
digits, optional fractional digits) evaluates, everything else is NaN.
(Hexadecimal, exponent and Infinity forms do not occur in the handled
input class and fall into the NaN case here.) -/
def jsNumber (s : String) : JsNum :=
  let cs := trimChars s.data
  match cs with
  | [] => JsNum.num ⟨0, 0⟩
  | _ =>
    let (sign, body) :=
      match cs with
      | '-' :: rest => ((-1 : Int), rest)
      | '+' :: rest => ((1 : Int), rest)
      | _ => ((1 : Int), cs)
    let ds := body.takeWhile Char.isDigit
    let r1 := body.dropWhile Char.isDigit
    match r1 with
    | [] =>
      if ds = [] then JsNum.nan
      else JsNum.num (decOfInt (sign * (digitsToNat ds : Int)))
    | '.' :: r2 =>
      let fs := r2.takeWhile Char.isDigit
      let r3 := r2.dropWhile Char.isDigit
      if r3 = [] && (ds ≠ [] || fs ≠ []) then
        JsNum.num (mkDec (sign * ((digitsToNat ds * 10 ^ fs.length + digitsToNat fs : Nat) : Int))
          fs.length)
      else JsNum.nan
    | _ => JsNum.nan

/-! ## Field model (types.ts) -/

/-- An enum member as serialized by types.ts; the number mode of
detectEnum stores numbers, every other producer stores strings. -/
inductive EnumVal where
  | str (s : String)
  | num (n : JsNum)
  deriving DecidableEq, Repr

/-- The Field union of types.ts, restricted to the data parseTypeText
and extractedTypeToField produce (key, required and description are
merged in later by the callers). -/
inductive Field where
  | integer (enum : Option (List EnumVal)) (default min max : Option JsNum)
  | float (enum : Option (List EnumVal)) (default min max : Option JsNum)
  | str (const : Option String) (enum : Option (List EnumVal))
      (default : Option String) (minLen maxLen : Option JsNum)
  | boolean (const : Option Bool)
  | array (arrayOf : Field)
  | reference (name anchor : String)
  | one_of (variants : List Field)

/-- A bare string field, the resolver's universal fallback. -/
def bareString : Field :=
  Field.str none none none none none

/-! ## Scanners over type-column text (the cheerio queries of types.ts)

The type column text is a string that may contain anchor tags.  The
queries used on it are modelled by direct scanners: stripGo is the text
content (tags removed), findLinks collects each anchor's text and href
attribute.  Anchors in this input class are flat and their attribute
values quoted. -/

def stripGo : Bool → List Char → List Char
  | _, [] => []
  | true, c :: r => if c = '>' then stripGo false r else stripGo true r
  | false, c :: r => if c = '<' then stripGo true r else c :: stripGo false r

def stripTags (cs : List Char) : List Char :=
  stripGo false cs

/-- Characters of a tag up to the closing angle bracket, and the rest. -/
def takeTagAttrs : List Char → Option (List Char × List Char)
  | [] => none
  | c :: rest =>
    if c = '>' then some ([], rest)
    else
      match takeTagAttrs rest with
      | some (as, after) => some (c :: as, after)
      | none => none

/-- Body of an anchor element up to the closing tag, and the rest. -/
def takeUntilCloseA : List Char → Option (List Char × List Char)
  | [] => none
  | c :: rest =>
    if startsWithSeq ['<', '/', 'a', '>'] (c :: rest) then some ([], rest.drop 3)
    else
      match takeUntilCloseA rest with
      | some (body, after) => some (c :: body, after)
      | none => none

/-- Value of a quoted attribute. -/
def quotedAttrValue : List Char → Option (List Char)
  | q :: rest =>
    if q = '"' || q = '\'' then some (rest.takeWhile (· ≠ q)) else none
  | [] => none

/-- First href attribute value inside a tag's attribute characters. -/
def findHref : List Char → Option (List Char)
  | [] => none
  | c :: rest =>
    if startsWithSeq ['h', 'r', 'e', 'f', '='] (c :: rest) then
      quotedAttrValue (rest.drop 4)
    else findHref rest

/-- All anchors of the string: text content (tags stripped) paired with
the href attribute value when present. -/
def findLinks : Nat → List Char → List (String × Option String)
  | 0, _ => []
  | _ + 1, [] => []
  | fuel + 1, c :: rest =>
    let skip := findLinks fuel rest
    if c = '<' then
      match rest with
      | 'a' :: r2 =>
        let headOk :=
          match r2 with
          | x :: _ => isJsSpace x || x = '>'
          | [] => false
        if headOk then
          match takeTagAttrs r2 with
          | some (attrs, afterOpen) =>
            match takeUntilCloseA afterOpen with
            | some (body, afterClose) =>
              (String.mk (stripTags body), (findHref attrs).map String.mk)
                :: findLinks fuel afterClose
            | none => skip
          | none => skip
        else skip
      | _ => skip
    else skip

structure TypeInfo where
  text : String
  href : Option String := none
  deriving DecidableEq, Repr

/-- extractTypeAndRef of types.ts: the first anchor's trimmed text and
href when an anchor exists, otherwise the trimmed text content. -/
def extractTypeAndRef (html : String) : TypeInfo :=
  let links := findLinks html.data.length html.data
  match links with
  | (t, h) :: _ => ⟨trimStr t, h⟩
  | [] => ⟨trimStr (String.mk (stripTags html.data)), none⟩

/-- extractAllTypeRefs of types.ts: all anchors with nonempty trimmed
text, but only when there is more than one anchor. -/
def extractAllTypeRefs (html : String) : List TypeInfo :=
  let links := findLinks html.data.length html.data
  if links.length ≤ 1 then []
  else links.filterMap (fun lk =>
    let t := trimStr lk.1
    if t ≠ "" then some (⟨t, lk.2⟩ : TypeInfo) else none)

/-! ## Description-level scanners of types.ts -/

/-- detectConst's regular expression: the word always (case-insensitive),
one or more whitespace characters, then a quoted nonempty span, searched
over the text content of the description. -/
def alwaysQuotedGo : List Char → Option String
  | [] => none
  | c :: rest =>
    let fail := alwaysQuotedGo rest
    if lowerChars (List.take 6 (c :: rest)) = ['a', 'l', 'w', 'a', 'y', 's'] then
      let afterWord := List.drop 5 rest
      let ws := afterWord.takeWhile isJsSpace
      let r2 := afterWord.dropWhile isJsSpace
      if ws ≠ [] then
        match r2 with
        | q :: r3 =>
          if isQuoteChar q then
            let captured := r3.takeWhile (fun x => !isQuoteChar x)
            let r4 := r3.dropWhile (fun x => !isQuoteChar x)
            if captured ≠ [] && r4 ≠ [] then some (String.mk captured) else fail
          else fail
        | [] => fail
      else fail
    else fail

def detectConst (d : HList) : Option String :=
  alwaysQuotedGo (listText d).data

/-! The alt texts of img.emoji[alt] elements, in document order. -/
mutual
def nodeEmojiAlts : HNode → List String
  | HNode.text _ => []
  | HNode.a _ c => listEmojiAlts c
  | HNode.em c => listEmojiAlts c
  | HNode.strong c => listEmojiAlts c
  | HNode.b c => listEmojiAlts c
  | HNode.code c => listEmojiAlts c
  | HNode.img cls alt =>
    if cls.contains "emoji" then
      match alt with
      | some a => [a]
      | none => []
    else []
  | HNode.li c => listEmojiAlts c
  | HNode.br => []
  | HNode.p c => listEmojiAlts c
  | HNode.other c => listEmojiAlts c

def listEmojiAlts : HList → List String
  | HList.nil => []
  | HList.cons n l => nodeEmojiAlts n ++ listEmojiAlts l
end

/-! The cleaned description text of detectEnum's fallback: img tags are
deleted outright, every other tag becomes a space, whitespace runs are
collapsed and the ends trimmed. -/
mutual
def cleanNode : HNode → List Char
  | HNode.text s => s.data
  | HNode.a _ c => ' ' :: cleanList c ++ [' ']
  | HNode.em c => ' ' :: cleanList c ++ [' ']
  | HNode.strong c => ' ' :: cleanList c ++ [' ']
  | HNode.b c => ' ' :: cleanList c ++ [' ']
  | HNode.code c => ' ' :: cleanList c ++ [' ']
  | HNode.img _ _ => []
  | HNode.li c => ' ' :: cleanList c ++ [' ']
  | HNode.br => [' ']
  | HNode.p c => ' ' :: cleanList c ++ [' ']
  | HNode.other c => ' ' :: cleanList c ++ [' ']

def cleanList : HList → List Char
  | HList.nil => []
  | HList.cons n l => cleanNode n ++ cleanList l
end

def cleanDescription (d : HList) : List Char :=
  collapseWs (cleanList d)

def isAsciiQuote (c : Char) : Bool :=
  c = '"' || c = '\''

/-- The quoted-substring matches of /(["'])(.*?)\1/g: at each ASCII
quote character, the shortest span up to the next occurrence of the same
character; an unclosed quote fails and scanning resumes one character
later.  The fuel is the length of the scanned list. -/
def quotedGo : Nat → List Char → List String
  | 0, _ => []
  | _ + 1, [] => []
  | fuel + 1, c :: rest =>
    if isAsciiQuote c then
      let body := rest.takeWhile (· ≠ c)
      let r2 := rest.dropWhile (· ≠ c)
      match r2 with
      | _ :: after => String.mk body :: quotedGo fuel after
      | [] => quotedGo fuel rest
    else quotedGo fuel rest

def quotedMatches (cs : List Char) : List String :=
  quotedGo cs.length cs

/-! ## Enum detection (detectEnum in types.ts) -/

inductive ETy where
  | str | num
  deriving DecidableEq, Repr

/-- The quoted-substring fallback stage of detectEnum. -/
def detectEnumFallback (d : HList) : Option (List EnumVal) :=
  if (quotedMatches (cleanDescription d)).length > 1 then
    some ((dedupKeep (quotedMatches (cleanDescription d))).map EnumVal.str)
  else none

def detectEnum (d : HList) (t : ETy) : Option (List EnumVal) :=
  if (listEmojiAlts d).filter (· ≠ "") ≠ [] ∧ t ≠ ETy.num then
    some ((dedupKeep ((listEmojiAlts d).filter (· ≠ ""))).map EnumVal.str)
  else
    match extractOneOf (parseDescriptionToSentences d) with
    | some l =>
      if l.length > 1 then
        match t with
        | ETy.num =>
          if ((l.map jsNumber).filter (fun n => !n.isNaN)).length > 1 then
            some ((dedupKeep ((l.map jsNumber).filter (fun n => !n.isNaN))).map EnumVal.num)
          else none
        | ETy.str => some ((dedupKeep l).map EnumVal.str)
      else detectEnumFallback d
    | none => detectEnumFallback d

/-! ## Field details and the type resolver (types.ts) -/

structure FieldDetails where
  min : Option JsNum
  max : Option JsNum
  default : Option JsNum
  deriving DecidableEq, Repr

def parseFieldDetailsSentence (d : HList) : FieldDetails :=
  let sentences := parseDescriptionToSentences d
  let defaultStr := extractDefault sentences
  let minMax := extractMinMax sentences
  ⟨minMax.map (fun mm => jsNumber mm.min),
   minMax.map (fun mm => jsNumber mm.max),
   defaultStr.map jsNumber⟩

/-- JavaScript truthiness of an optional string (the empty string is
falsy). -/
def jsTruthyOpt : Option String → Bool
  | some s => s ≠ ""
  | none => false

/-- JavaScript a || b on optional strings. -/
def jsOrStr (a b : Option String) : Option String :=
  match a with
  | some s => if s = "" then b else some s
  | none => b

def HList.isNil : HList → Bool
  | HList.nil => true
  | HList.cons _ _ => false

/-- Truthiness of the optional description: present and drawn from a
nonempty string (an empty string parses to an empty node list). -/
def descTruthy : Option HList → Bool
  | some h => !h.isNil
  | none => false

/-- NaN guard of the numeric branches: a present value is kept only when
it is not NaN. -/
def nanGuard : Option JsNum → Option JsNum
  | some v => if v.isNaN then none else some v
  | none => none

/-- Length-truthy guard of enum serialization: a present list is kept
only when nonempty. -/
def lenGuard : Option (List EnumVal) → Option (List EnumVal)
  | some l => if l.length ≠ 0 then some l else none
  | none => none

/-- Case-insensitive match of the anchored array regex: the text begins
with Array of (any case) and at least one character follows. -/
def isArrayOfText (text : String) : Bool :=
  lowerChars (text.data.take 9) = ['a', 'r', 'r', 'a', 'y', ' ', 'o', 'f', ' '] &&
    decide (9 < text.data.length)

def keywordOf (tt : String) : Bool :=
  tt = "Integer" || tt = "Float" || tt = "Float number" || tt = "String" ||
    tt = "Boolean" || tt = "True" || tt = "False"

/-- parseTypeText of types.ts.  The recursion of the source is on
strictly shorter type texts (the tail after the array prefix, the pieces
of an " or " split, anchor texts inside those); fuel, always supplied
as more than the text length, drives it here. -/
def parseTypeTextFuel : Nat → TypeInfo → Option HList → Field
  | 0, _, _ => bareString
  | fuel + 1, typeInfo, description =>
    if isArrayOfText typeInfo.text then
      let innerTypeText := String.mk (typeInfo.text.data.drop 9)
      let multiRefs := extractAllTypeRefs innerTypeText
      if multiRefs.length > 1 then
        Field.array (Field.one_of (multiRefs.map (fun r => parseTypeTextFuel fuel r none)))
      else
        Field.array (parseTypeTextFuel fuel ⟨innerTypeText, none⟩ none)
    else if containsSeq [' ', 'o', 'r', ' '] typeInfo.text.data then
      let pieces := (splitStr " or " typeInfo.text).map trimStr
      Field.one_of (pieces.map (fun piece =>
        let e := extractTypeAndRef piece
        if jsTruthyOpt e.href then parseTypeTextFuel fuel ⟨e.text, e.href⟩ none
        else parseTypeTextFuel fuel ⟨piece, none⟩ none))
    else
      let e := extractTypeAndRef typeInfo.text
      let finalHref := jsOrStr e.href typeInfo.href
      let tt := trimStr e.text
      if tt = "Integer" then
        let details := parseFieldDetailsSentence (description.getD HList.nil)
        let enumValues := if descTruthy description
          then detectEnum (description.getD HList.nil) ETy.num else none
        Field.integer (lenGuard enumValues) (nanGuard details.default)
          (nanGuard details.min) (nanGuard details.max)
      else if tt = "Float" || tt = "Float number" then
        let details := parseFieldDetailsSentence (description.getD HList.nil)
        let enumValues := if descTruthy description
          then detectEnum (description.getD HList.nil) ETy.num else none
        Field.float (lenGuard enumValues) (nanGuard details.default)
          (nanGuard details.min) (nanGuard details.max)
      else if tt = "String" then
        let enumValues := if descTruthy description
          then detectEnum (description.getD HList.nil) ETy.str else none
        let constValue := if descTruthy description
          then detectConst (description.getD HList.nil) else none
        let sentences := if descTruthy description
          then parseDescriptionToSentences (description.getD HList.nil) else []
        let defaultStr := extractDefault sentences
        let mustBeConst := extractConst sentences
        let minMax := extractMinMax sentences
        Field.str (constValue.orElse (fun _ => mustBeConst)) (lenGuard enumValues) defaultStr
          (match minMax with
           | some mm => if mm.min ≠ "" then some (jsNumber mm.min) else none
           | none => none)
          (match minMax with
           | some mm => if mm.max ≠ "" then some (jsNumber mm.max) else none
           | none => none)
      else if tt = "Boolean" then Field.boolean none
      else if tt = "True" then Field.boolean (some true)
      else if tt = "False" then Field.boolean (some false)
      else if jsTruthyOpt finalHref then Field.reference tt (finalHref.getD "")
      else bareString

def parseTypeText (typeInfo : TypeInfo) (description : Option HList) : Field :=
  parseTypeTextFuel (typeInfo.text.data.length + 1) typeInfo description

/-! ## Return-type field construction (extractedTypeToField in types.ts) -/

/-- Remove the first case-insensitive occurrence of a space followed by
the word object and an optional trailing s. -/
def removeObjGo : List Char → List Char
  | [] => []
  | c :: rest =>
    if lowerChars (List.take 7 (c :: rest)) = [' ', 'o', 'b', 'j', 'e', 'c', 't'] then
      let after := List.drop 6 rest
      match after with
      | x :: xs => if x.toLower = 's' then xs else after
      | [] => []
    else c :: removeObjGo rest

def removeObjectsWord (s : String) : String :=
  String.mk (removeObjGo s.data)

mutual
def extractedTypeToField : ExtractedType → Field
  | ExtractedType.single name href =>
    let nm := name.getD ""
    if nm = "True" then Field.boolean (some true)
    else if nm = "False" then Field.boolean (some false)
    else if nm = "Int" || nm = "Integer" then Field.integer none none none none
    else if nm = "String" then bareString
    else if nm = "Boolean" then Field.boolean none
    else
      let generated := "#" ++ removeObjectsWord (lowerStr nm)
      let anchor :=
        match href with
        | some h => if h = "" then generated else h
        | none => generated
      Field.reference (removeObjectsWord nm) anchor
  | ExtractedType.array none => bareString
  | ExtractedType.array (some i) => Field.array (extractedTypeToField i)
  | ExtractedType.or vs =>
    match vs with
    | EList.nil => bareString
    | EList.cons _ _ => Field.one_of (fieldsOfEList vs)

def fieldsOfEList : EList → List Field
  | EList.nil => []
  | EList.cons t l => extractedTypeToField t :: fieldsOfEList l
end

/-! ## Declarative matcher semantics (the contract of section 4.3)

A second formulation of the matcher, written after the specification's
words rather than the source's loop-and-flags structure: within a
sentence the first pattern (in set order) that matches anywhere decides
the sentence — abandoning it when the pattern excludes, otherwise
producing the suffix from the capture start of its leftmost window — and
the result of the call is the first sentence that produces a suffix. -/

def firstHit (pats : List SearcherPattern) (s : Sentence) : Option (SearcherPattern × Nat) :=
  pats.findSome? (fun p => (firstWindow p s).map (fun i => (p, i)))

def sentenceSpec (pats : List SearcherPattern) (s : Sentence) : Option Sentence :=
  match firstHit pats s with
  | none => none
  | some (p, i) => if p.exclude then none else some (s.drop (captureStart p i))

def matchPatternSpec (pats : List SearcherPattern) (ss : List Sentence) : Option Sentence :=
  ss.findSome? (sentenceSpec pats)

/-- Interpretation of a per-sentence loop outcome as the optional
suffix the sentence contributes. -/
def SentOutcome.result : SentOutcome → Option Sentence
  | SentOutcome.excluded => none
  | SentOutcome.found r => some r
  | SentOutcome.noMatch => none

lemma sentenceOutcome_result_eq (pats : List SearcherPattern) (s : Sentence) :
    (sentenceOutcome pats s).result = sentenceSpec pats s := by
  induction pats with
  | nil => rfl
  | cons p ps ih =>
    simp only [sentenceOutcome, sentenceSpec, firstHit, List.findSome?]
    cases h : firstWindow p s with
    | none =>
      simp only [Option.map_none']
      simpa [sentenceSpec, firstHit] using ih
    | some i =>
      simp only [Option.map_some']
      by_cases he : p.exclude <;> simp [he, SentOutcome.result]

lemma matchPatternList_eq_spec (pats : List SearcherPattern) (ss : List Sentence) :
    matchPatternList pats ss = matchPatternSpec pats ss := by
  induction ss with
  | nil => rfl
  | cons s rest ih =>
    simp only [matchPatternList, matchPatternSpec, List.findSome?]
    have h := sentenceOutcome_result_eq pats s
    cases ho : sentenceOutcome pats s with
    | excluded =>
      rw [ho] at h
      simp only [SentOutcome.result] at h
      rw [← h]
      simpa [matchPatternSpec] using ih
    | found r =>
      rw [ho] at h
      simp only [SentOutcome.result] at h
      rw [← h]
    | noMatch =>
      rw [ho] at h
      simp only [SentOutcome.result] at h
      rw [← h]
      simpa [matchPatternSpec] using ih

/-- C1: for every pattern set name and list of Sentences, matchPattern
scans sentences in order and patterns in order within each sentence; an
exclude-marked pattern matching before any non-excluded pattern of the
set abandons the sentence, the first non-excluded match yields the
suffix of the sentence from max(0, windowEnd + offset) immediately with
no further sentences examined, and with no non-excluded match anywhere
the result is undefined — the loop implementation equals the declarative
first-match semantics. -/
theorem matchPattern_eq_declarative_contract (pt : PatternType) (ss : List Sentence) :
    matchPattern pt ss = matchPatternSpec (getPatterns pt) ss :=
  matchPatternList_eq_spec (getPatterns pt) ss

/-! ## The dead non-excluded lowercase defaults-to pattern (C10) -/

def pDefaults : SearcherPattern := ⟨[wd "Defaults", wd "to"], 0, false⟩
def pDefaultsLowEx : SearcherPattern := ⟨[wd "defaults", wd "to"], 0, true⟩
def pDefaultsLow : SearcherPattern := ⟨[wd "defaults", wd "to"], 0, false⟩
def pMustBe : SearcherPattern := ⟨[wd "must", wd "be", SearchBy.kind PartKind.italic], -1, false⟩
def pAlwaysQ : SearcherPattern := ⟨[wd "always", SearchBy.quotes], -1, false⟩

/-- The Default pattern set with the unreachable non-excluded lowercase
defaults-to pattern removed. -/
def defaultPatternsLive : List SearcherPattern :=
  [pDefaults, pDefaultsLowEx, pMustBe, pAlwaysQ]

/-- extractDefault rerun over the pruned pattern set. -/
def extractDefaultLive (sentences : List Sentence) : Option String :=
  match matchPatternList defaultPatternsLive sentences with
  | none => none
  | some [] => none
  | some (p :: _) => some p.inner

lemma firstWindow_parts_eq {p q : SearcherPattern} (h : p.parts = q.parts)
    (s : Sentence) : firstWindow p s = firstWindow q s := by
  simp [firstWindow, windowHits, h]

lemma default_outcome_eq (s : Sentence) :
    sentenceOutcome (getPatterns PatternType.Default) s =
      sentenceOutcome defaultPatternsLive s := by
  show sentenceOutcome [pDefaults, pDefaultsLowEx, pDefaultsLow, pMustBe, pAlwaysQ] s =
      sentenceOutcome [pDefaults, pDefaultsLowEx, pMustBe, pAlwaysQ] s
  have hw : firstWindow pDefaultsLow s = firstWindow pDefaultsLowEx s :=
    firstWindow_parts_eq rfl s
  simp only [sentenceOutcome]
  cases h0 : firstWindow pDefaults s with
  | some i => rfl
  | none =>
    cases h1 : firstWindow pDefaultsLowEx s with
    | some i => rfl
    | none => rw [hw, h1]

lemma default_match_eq (ss : List Sentence) :
    matchPattern PatternType.Default ss = matchPatternList defaultPatternsLive ss := by
  induction ss with
  | nil => rfl
  | cons s rest ih =>
    show matchPatternList (getPatterns PatternType.Default) (s :: rest) = _
    simp only [matchPatternList, default_outcome_eq s]
    cases sentenceOutcome defaultPatternsLive s <;> simp_all [matchPattern]

/-- C10: the non-excluded lowercase defaults-to pattern of the Default
set can never produce the matcher's result — removing it changes neither
matchPattern nor extractDefault, so a capture can only come from the
Defaults-to, must-be-italic or always-quoted patterns (or be blocked by
the exclusion). -/
theorem defaultDeadPattern_removal (ss : List Sentence) :
    matchPattern PatternType.Default ss = matchPatternList defaultPatternsLive ss ∧
      extractDefault ss = extractDefaultLive ss := by
  refine ⟨default_match_eq ss, ?_⟩
  simp only [extractDefault, extractDefaultLive, default_match_eq ss]

/-! ## Sentence-count bound for break-free descriptions (C8) -/

/-- A single-text-node description, the document cheerio builds from a
markup-free description string. -/
def textHtml (s : String) : HList :=
  HList.cons (HNode.text s) HList.nil

/-- The quote state after one token, as the walker updates it (only
quote tokens outside parentheses change it, and a closing quote cycles
straight back through right to none). -/
def stepQuote (k : TokenKind) (q : QuoteState) (par : Bool) : QuoteState :=
  match k with
  | TokenKind.quote =>
    if par then q
    else
      let q2 := nextQuoteState q
      if q2 = QuoteState.left then q2
      else if q2 = QuoteState.right then nextQuoteState QuoteState.right
      else q2
  | _ => q

/-- The parenthesis flag after one token. -/
def stepParen (k : TokenKind) (par : Bool) : Bool :=
  match k with
  | TokenKind.lparen => true
  | TokenKind.rparen => false
  | _ => par

/-- Token scan tracking only the quote state and parenthesis flag, true
when no period token is met outside a quoted span and outside a
parenthesized span (the condition under which the walker finalizes a
sentence mid-text). -/
def scanQP : List Token → QuoteState → Bool → Bool
  | [], _, _ => true
  | t :: rest, q, par =>
    if t.kind = TokenKind.dot ∧ par = false ∧ q ≠ QuoteState.left then false
    else scanQP rest (stepQuote t.kind q par) (stepParen t.kind par)

lemma finalizeSentence_quote (st : PState) :
    (finalizeSentence st).quote = st.quote := by
  unfold finalizeSentence; split <;> rfl

lemma finalizeSentence_paren (st : PState) :
    (finalizeSentence st).paren = st.paren := by
  unfold finalizeSentence; split <;> rfl

lemma processToken_quote (st : PState) (t : Token) :
    (processToken st t).quote = stepQuote t.kind st.quote st.paren := by
  cases hk : t.kind <;>
    simp only [processToken, stepQuote, hk] <;>
    split <;> simp_all [finalizeSentence_quote] <;>
    split <;> simp_all [collapseQuotedParts] <;> split <;> simp_all

lemma processToken_paren (st : PState) (t : Token) :
    (processToken st t).paren = stepParen t.kind st.paren := by
  cases hk : t.kind <;>
    simp only [processToken, stepParen, hk] <;>
    split <;> simp_all [finalizeSentence_paren] <;>
    split <;> simp_all [collapseQuotedParts] <;> split <;> simp_all

lemma processToken_sentences (st : PState) (t : Token)
    (h : ¬(t.kind = TokenKind.dot ∧ st.paren = false ∧ st.quote ≠ QuoteState.left)) :
    (processToken st t).sentences = st.sentences := by
  cases hk : t.kind <;> simp only [processToken, hk]
  case word => split <;> rfl
  case dot =>
    rw [if_neg]
    intro hc
    exact h ⟨hk, hc⟩
  case quote =>
    split
    · rfl
    · split
      · rfl
      · split <;> simp [collapseQuotedParts]

lemma scan_foldl_sentences : ∀ (tokens : List Token) (st : PState),
    scanQP tokens st.quote st.paren = true →
    ((tokens.foldl processToken st).sentences = st.sentences) := by
  intro tokens
  induction tokens with
  | nil => intro st _; rfl
  | cons t rest ih =>
    intro st h
    simp only [scanQP] at h
    by_cases hc : (t.kind = TokenKind.dot ∧ st.paren = false ∧ st.quote ≠ QuoteState.left)
    · simp [hc] at h
    · rw [if_neg hc] at h
      have hq := processToken_quote st t
      have hp := processToken_paren st t
      have hstep : (rest.foldl processToken (processToken st t)).sentences =
          (processToken st t).sentences := by
        apply ih
        rw [hq, hp]
        exact h
      simp only [List.foldl, hstep, processToken_sentences st t hc]

/-- C8 counterexample: a description with no period token anywhere (so
in particular none outside quotes or parentheses) for which the sentence
list is empty rather than a single Sentence — the parenthesized span is
elided and no Part is ever produced. -/
theorem parenOnlyDescription_zeroSentences :
    scanQP (tokenize "(hello)") QuoteState.none false = true ∧
      (parseDescriptionToSentences (textHtml "(hello)")).length = 0 :=
  ⟨rfl, rfl⟩

/-- C8 as amended: a description string with no period token outside
quoted spans and outside parenthesized spans (as tracked by the walker's
own quote and parenthesis state) produces at most one Sentence; exactly
one is obtained only when some Part accumulates. -/
theorem noBreakingDot_atMostOneSentence (d : String)
    (h : scanQP (tokenize d) QuoteState.none false = true) :
    (parseDescriptionToSentences (textHtml d)).length ≤ 1 := by
  show (finalizeSentence (processNodes initPState (textHtml d))).sentences.length ≤ 1
  have hrw : processNodes initPState (textHtml d) = processTextNode initPState d := rfl
  rw [hrw]
  have hs : (processTextNode initPState d).sentences = [] :=
    scan_foldl_sentences (tokenize d) initPState (by simpa [initPState] using h)
  unfold finalizeSentence
  split <;> simp [hs]

/-- Closed instance of the at-most-one-sentence bound at a concrete
break-free description. -/
theorem noBreakingDot_atMostOneSentence_witness :
    (parseDescriptionToSentences (textHtml "Unique identifier for the target chat")).length ≤ 1 :=
  noBreakingDot_atMostOneSentence "Unique identifier for the target chat" (by decide)

/-! ## Facet accessors -/

/-- The enum facet of a field, absent on kinds that carry none. -/
def Field.enumOf : Field → Option (List EnumVal)
  | Field.integer e _ _ _ => e
  | Field.float e _ _ _ => e
  | Field.str _ e _ _ _ => e
  | _ => none

/-! ## C2: the resolver's universal bare-string fallback -/

/-- C2: parseTypeText is total (it is a Lean function on every typeInfo
and description), and when the literal type text is no array-of text,
contains no or-separator, resolves to none of the recognized keywords
(Integer, Float, Float number, String, Boolean, True, False) and no
truthy href is available, the result is the bare string Field. -/
theorem parseTypeText_fallback_bareString (t : TypeInfo) (d : Option HList)
    (h1 : isArrayOfText t.text = false)
    (h2 : containsSeq [' ', 'o', 'r', ' '] t.text.data = false)
    (h3 : keywordOf (trimStr (extractTypeAndRef t.text).text) = false)
    (h4 : jsTruthyOpt (jsOrStr (extractTypeAndRef t.text).href t.href) = false) :
    parseTypeText t d = bareString := by
  simp only [keywordOf, Bool.or_eq_false_iff, decide_eq_false_iff_not] at h3
  obtain ⟨⟨⟨⟨⟨⟨n1, n2⟩, n3⟩, n4⟩, n5⟩, n6⟩, n7⟩ := h3
  unfold parseTypeText parseTypeTextFuel
  simp only [h1, h2, Bool.false_eq_true, if_false]
  rw [if_neg n1, if_neg (by simp [n2, n3]), if_neg n4, if_neg n5, if_neg n6, if_neg n7,
    if_neg (by simp [h4])]

/-- Closed instance of the bare-string fallback at an unrecognized
keyword with no href. -/
theorem parseTypeText_fallback_bareString_witness :
    parseTypeText ⟨"UnknownType", none⟩ none = bareString :=
  parseTypeText_fallback_bareString ⟨"UnknownType", none⟩ none (by decide) (by decide)
    (by decide) (by decide)

/-! ## C3: the InputFile-or-String union -/

/-- C3 counterexample: on the literal type text InputFile or String with
no href at all, both variants of the union are bare string Fields — the
InputFile side carries no anchor, so it cannot become a reference. -/
theorem noHrefUnion_variantsBothString :
    parseTypeText ⟨"InputFile or String", none⟩ none = Field.one_of [bareString, bareString] ∧
      Field.one_of [bareString, bareString] ≠
        Field.one_of [Field.reference "InputFile" "#inputfile", bareString] :=
  ⟨rfl, by simp [bareString]⟩

/-- C3 as amended: when the InputFile side carries its anchor markup (as
in the documentation's type column), the union is a reference Field with
name InputFile and anchor number-sign inputfile together with a bare
string Field. -/
theorem anchorUnion_referencePlusString :
    parseTypeText ⟨"<a href=\"#inputfile\">InputFile</a> or String", some "#inputfile"⟩ none =
      Field.one_of [Field.reference "InputFile" "#inputfile", bareString] :=
  rfl

/-! ## C4: a one-variant one_of -/

/-- C4: a part list containing the word otherwise and exactly one
uppercase-led part builds an or-ExtractedType with a single variant, and
extractedTypeToField turns it into a one_of Field with one variant —
fewer than the documented minimum of two. -/
theorem orSingleVariant_oneOfBelowTwo :
    extractTypeFromParts [partNew "otherwise", partNew "True"] =
      some (ExtractedType.or (EList.cons (ExtractedType.single (some "True") none) EList.nil)) ∧
    extractedTypeToField
        (ExtractedType.or (EList.cons (ExtractedType.single (some "True") none) EList.nil)) =
      Field.one_of [Field.boolean (some true)] ∧
    ([Field.boolean (some true)] : List Field).length < 2 :=
  ⟨rfl, rfl, by norm_num⟩

/-! ## C5: const and default set together -/

/-- C5: on a String-typed field whose description matches the
always-quoted pattern, the resolver sets both the const facet (through
the always-quoted regular expression) and the default facet (through
the always-quoted Default pattern) to the same captured value. -/
theorem stringField_constAndDefault_bothSet :
    parseTypeText ⟨"String", none⟩ (some (textHtml "The status is always \"creator\".")) =
      Field.str (some "creator") none (some "creator") none none :=
  rfl

/-! ## C6: enum lists below two values -/

/-- C6 counterexample: a description whose only content is one emoji
image with class emoji produces a one-element enum in string mode — the
emoji stage has no two-value minimum. -/
theorem singleEmojiAlt_oneValueEnum :
    detectEnum (HList.cons (HNode.img ["emoji"] (some "🎲")) HList.nil) ETy.str =
        some [EnumVal.str "🎲"] ∧
      ([EnumVal.str "🎲"] : List EnumVal).length = 1 :=
  ⟨rfl, rfl⟩

/-! ## C7: NaN serialized into a length constraint -/

/-- C7: a String-typed field whose description matches the characters
pattern with a non-numeric range stores NaN in both minLen and maxLen —
the string branch lacks the NaN guard of the numeric branches. -/
theorem stringField_nanLength_serialized :
    parseTypeText ⟨"String", none⟩ (some (textHtml "Must be a-b characters long.")) =
      Field.str none none none (some JsNum.nan) (some JsNum.nan) :=
  rfl

lemma dedupKeep_ne_nil {α : Type} [DecidableEq α] {l : List α} (h : l ≠ []) :
    dedupKeep l ≠ [] := by
  cases l with
  | nil => exact absurd rfl h
  | cons a rest => simp [dedupKeep]

/-- C6 as amended: every enum list detectEnum produces is nonempty; the
two-value minimum holds only as a pre-deduplication candidate count at
the sentence-based and quoted-fallback stages, while the emoji stage
fires from a single alt text. -/
theorem detectEnum_valueList_nonempty (d : HList) (t : ETy) (l : List EnumVal)
    (h : detectEnum d t = some l) : l ≠ [] := by
  unfold detectEnum at h
  have hfb : ∀ (hh : detectEnumFallback d = some l), l ≠ [] := by
    intro hh
    unfold detectEnumFallback at hh
    split at hh
    · injection hh with hh
      rw [← hh]
      simp only [ne_eq, List.map_eq_nil]
      apply dedupKeep_ne_nil
      intro hnil
      simp_all
    · exact absurd hh (by simp)
  split at h
  · next hcond =>
    injection h with h
    rw [← h]
    simp only [ne_eq, List.map_eq_nil]
    exact dedupKeep_ne_nil hcond.1
  · next hcond =>
    split at h
    · next l0 heq =>
      split at h
      · next hlen =>
        cases t with
        | num =>
          simp only at h
          split at h
          · next hnums =>
            injection h with h
            rw [← h]
            simp only [ne_eq, List.map_eq_nil]
            apply dedupKeep_ne_nil
            intro hnil
            rw [hnil] at hnums
            simp at hnums
          · exact absurd h (by simp)
        | str =>
          simp only at h
          injection h with h
          rw [← h]
          simp only [ne_eq, List.map_eq_nil]
          apply dedupKeep_ne_nil
          intro hnil
          rw [hnil] at hlen
          simp at hlen
      · exact hfb h
    · exact hfb h

/-- Closed instance: a two-value can-be enum list is nonempty. -/
theorem detectEnum_valueList_nonempty_witness :
    ([EnumVal.str "x", EnumVal.str "y"] : List EnumVal) ≠ [] :=
  detectEnum_valueList_nonempty (textHtml "Can be \"x\" or \"y\".") ETy.str
    [EnumVal.str "x", EnumVal.str "y"] rfl

/-! ## C9: no emoji enum on numeric fields -/

/-- True when the sentence-based one-of stage of a description cannot
deliver a numeric enum: either no one-of list is extracted, or at most
one of its values parses as a number. -/
def fewNumericOneOf (d : HList) : Bool :=
  match extractOneOf (parseDescriptionToSentences d) with
  | none => true
  | some l => ((l.map jsNumber).filter (fun n => !n.isNaN)).length ≤ 1

lemma parseTypeText_integer_shape (d : Option HList) :
    parseTypeText ⟨"Integer", none⟩ d =
      Field.integer
        (lenGuard (if descTruthy d then detectEnum (d.getD HList.nil) ETy.num else none))
        (nanGuard (parseFieldDetailsSentence (d.getD HList.nil)).default)
        (nanGuard (parseFieldDetailsSentence (d.getD HList.nil)).min)
        (nanGuard (parseFieldDetailsSentence (d.getD HList.nil)).max) :=
  rfl

/-- C9: an Integer-typed field never receives an enum from emoji alt
texts: whenever the sentence-based stage cannot deliver two numeric
values and the quoted fallback has at most one match, the integer Field
has no enum facet — regardless of how many emoji images the description
contains, because the emoji branch is guarded off for numeric fields. -/
theorem integerField_noEmojiEnum (d : HList)
    (h1 : fewNumericOneOf d = true)
    (h2 : (quotedMatches (cleanDescription d)).length ≤ 1) :
    Field.enumOf (parseTypeText ⟨"Integer", none⟩ (some d)) = none := by
  have hfb : detectEnumFallback d = none := by
    unfold detectEnumFallback
    rw [if_neg (by omega)]
  have hde : detectEnum d ETy.num = none := by
    unfold detectEnum
    rw [if_neg (by simp)]
    unfold fewNumericOneOf at h1
    cases hoo : extractOneOf (parseDescriptionToSentences d) with
    | none => exact hfb
    | some l =>
      rw [hoo] at h1
      simp only [decide_eq_true_eq] at h1
      dsimp only
      by_cases hl : l.length > 1
      · rw [if_pos hl]
        rw [if_neg (by omega)]
      · rw [if_neg hl]
        exact hfb
  rw [parseTypeText_integer_shape]
  cases hdt : descTruthy (some d) <;>
    simp [Field.enumOf, lenGuard, hdt, hde]

/-- Closed instance of the guard at a description containing two emoji
images and nothing else enum-like. -/
theorem integerField_noEmojiEnum_witness :
    Field.enumOf (parseTypeText ⟨"Integer", none⟩
      (some (HList.cons (HNode.img ["emoji"] (some "🎲"))
        (HList.cons (HNode.text " and ")
          (HList.cons (HNode.img ["emoji"] (some "🎯")) HList.nil))))) = none :=
  integerField_noEmojiEnum
    (HList.cons (HNode.img ["emoji"] (some "🎲"))
      (HList.cons (HNode.text " and ")
        (HList.cons (HNode.img ["emoji"] (some "🎯")) HList.nil)))
    (by decide) (by decide)

end Schema
